import Mathlib

/-!
Shallow embedding of `src/BIST50_Volatility_Analysis.py` (Turkish Market
Risk & Volatility Analysis).

Modelling choices, faithful to the pandas/numpy semantics the script uses:

* A table column (pandas `Series`) is a `List (Option ℝ)`; a cell `none`
  models a missing value / float NaN (the script's own data model treats
  NaN uniformly as "missing").  A table is a `List` of columns.
* `data.shift(1)` prepends a missing cell and drops the last row.
* `np.log(data / data.shift(1))` is elementwise; NaN propagates through
  `/` and `log`, so a cell is defined only when both prices are.
* `.rolling(window=w)` with an integer window uses `min_periods = w`
  (the pandas default for fixed windows): the output at row `t` is
  defined only when the `w` rows `t-w+1 .. t` all exist and are all
  non-missing.  `.std()` uses the sample convention `ddof = 1`; on fewer
  than two points the float computation divides by zero and yields NaN,
  which we model as `none` (so `w ≤ 1` silently yields an all-missing
  column, exactly as pandas does — no exception is raised).
* `DataFrame.corr()` is pairwise-complete Pearson correlation; when a
  pairwise variance is zero the float quotient is NaN, modelled `none`.
* Real numbers stand in for IEEE doubles; every real is finite, so
  float-overflow behaviour is out of scope of this model.
-/

namespace BIST50

/-- A table cell: `none` models a missing value / NaN. -/
abbrev Cell := Option ℝ

/-- One column of a table (a pandas `Series`). -/
abbrev Series := List Cell

/-- `s.shift(1)`: move every row down by one, a missing cell entering at
row 0 and the last row falling off. -/
def shift1 (xs : Series) : Series := none :: xs.dropLast

/-- Elementwise `np.log(x / y)` on two cells; a missing operand makes the
result missing (NaN propagation through `/` and `log`). -/
noncomputable def cellLogDiv : Cell → Cell → Cell
  | some x, some y => some (Real.log (x / y))
  | _, _ => none

/-- Line 31 of the source, per column:
`log_returns = np.log(data / data.shift(1))`. -/
noncomputable def logReturnsCol (prices : Series) : Series :=
  List.zipWith cellLogDiv prices (shift1 prices)

/-- Arithmetic mean of a list of reals (`0` on the empty list, as the
float computation `0/0` never reaches this case with the guards below). -/
noncomputable def mean (l : List ℝ) : ℝ := l.sum / l.length

/-- Sum of squared deviations from the mean. -/
noncomputable def sqDevSum (l : List ℝ) : ℝ := (l.map (fun x => (x - mean l) ^ 2)).sum

/-- Sample standard deviation (`ddof = 1`), the convention of pandas
`.std()`.  On fewer than two points the float division is `0/0 = NaN`,
modelled as `none`. -/
noncomputable def sampleStd? (l : List ℝ) : Option ℝ :=
  if l.length ≤ 1 then none
  else some (Real.sqrt (sqDevSum l / ((l.length : ℝ) - 1)))

/-- The trailing window of `w` rows of `xs` ending at row `t`
(fewer than `w` rows when `t + 1 < w`). -/
def trailingWindow (w t : ℕ) (xs : Series) : List Cell :=
  (xs.take (t + 1)).drop (t + 1 - w)

/-- Extract the values of a list of cells, provided none is missing. -/
def seqCells : List Cell → Option (List ℝ)
  | [] => some []
  | none :: _ => none
  | some x :: rest => (seqCells rest).map (x :: ·)

/-- `s.rolling(window=w).std()` on one column: pandas' fixed integer
window has `min_periods = w`, so row `t` is defined only when the window
holds `w` rows, all non-missing; the statistic is the sample standard
deviation of those `w` values. -/
noncomputable def rollingStdCol (w : ℕ) (xs : Series) : Series :=
  (List.range xs.length).map (fun t =>
    let win := trailingWindow w t xs
    if win.length < w then none
    else match seqCells win with
      | none => none
      | some vals => sampleStd? vals)

/-- Multiply every defined cell of a column by a constant
(elementwise `* np.sqrt(252)`; NaN stays NaN). -/
noncomputable def scaleCol (c : ℝ) (xs : Series) : Series :=
  xs.map (Option.map (· * c))

/-- Lines 26–34 of the source:

```
def calculate_volatility(data, window=21):
    log_returns = np.log(data / data.shift(1))
    rolling_vol = log_returns.rolling(window=window).std() * np.sqrt(252)
    return rolling_vol, log_returns
```

Column-wise over the table; returns `(rolling_vol, log_returns)`. -/
noncomputable def calculate_volatility (data : List Series) (window : ℕ) :
    List Series × List Series :=
  let log_returns := data.map logReturnsCol
  let rolling_vol :=
    log_returns.map (fun col => scaleCol (Real.sqrt 252) (rollingStdCol window col))
  (rolling_vol, log_returns)

/-- State-passing rendering of the body of `calculate_volatility`, used to
express the frame property: the final component is the value of the
argument binding `data` after the body has run.  Every operation the body
applies to `data` (`shift`, `/`, `np.log`, `rolling`, `std`, `*`)
allocates a fresh table; no statement of the body assigns into `data`,
so the final state is the binding itself. -/
noncomputable def calculate_volatility_frame (data : List Series) (window : ℕ) :
    (List Series × List Series) × List Series :=
  let log_returns := data.map logReturnsCol
  let rolling_vol :=
    log_returns.map (fun col => scaleCol (Real.sqrt 252) (rollingStdCol window col))
  ((rolling_vol, log_returns), data)

/-- The rows where both series are defined, paired up
(the "pairwise-complete" row set of `DataFrame.corr`). -/
def pairedRows (xs ys : Series) : List (ℝ × ℝ) :=
  (List.zipWith (fun a b =>
    match a, b with
    | some x, some y => some (x, y)
    | _, _ => none) xs ys).filterMap id

/-- Pearson correlation of a list of paired samples, the statistic pandas
computes per entry of `DataFrame.corr()`: covariance over the product of
the deviation norms, both over the pairwise-complete rows.  A zero
deviation norm (constant or empty sample) makes the float quotient NaN,
modelled `none`.  (The float code also clips the result to `[-1, 1]`,
which is a no-op for the exact statistic by Cauchy–Schwarz.) -/
noncomputable def pearson? (ps : List (ℝ × ℝ)) : Option ℝ :=
  let xs := ps.map Prod.fst
  let ys := ps.map Prod.snd
  if sqDevSum xs = 0 ∨ sqDevSum ys = 0 then none
  else
    some ((ps.map (fun p => (p.1 - mean xs) * (p.2 - mean ys))).sum /
      (Real.sqrt (sqDevSum xs) * Real.sqrt (sqDevSum ys)))

/-- `returns.corr()` (line 54): the square matrix of pairwise-complete
Pearson correlations between the columns. -/
noncomputable def corrMatrix (cols : List Series) : List (List Cell) :=
  cols.map (fun x => cols.map (fun y => pearson? (pairedRows x y)))

/-- Lines 49–58: `plot_correlation` computes `corr_matrix = returns.corr()`,
draws a heatmap (a pure presentation effect, outside this value-level
model) and returns the matrix. -/
noncomputable def plot_correlation (returns : List Series) : List (List Cell) :=
  corrMatrix returns

/-- The request `yf.download(tickers, start=start, end=end)` would be
issued with. -/
structure DownloadRequest where
  tickers : List String
  start : String
  stop : String
deriving DecidableEq, Repr

/-- Configuration errors the spec's taxonomy names; the source never
raises one. -/
inductive ConfigError where
  | invalidConfiguration (msg : String)
deriving DecidableEq, Repr

/-- Observable behaviour of `get_data` up to the external network call:
what it printed, and the download request it issued (`none` would mean
the function returned or raised before contacting the network). -/
structure FetchTrace where
  printed : List String
  request : Option DownloadRequest
deriving DecidableEq, Repr

/-- Lines 18–24 of the source:

```
def get_data(tickers, start, end):
    print(f"Fetching data for {tickers}...")
    data = yf.download(tickers, start=start, end=end)['Close']
    return data
```

The body is a print followed unconditionally by the network call; there
is no validation and no raise, so the embedding always returns `.ok`
with the request issued.  The `Except ConfigError` result type is there
so that the spec's demanded `InvalidConfiguration` failure is statable. -/
def get_data (tickers : List String) (start stop : String) :
    Except ConfigError FetchTrace :=
  .ok { printed := ["Fetching data for " ++ toString tickers ++ "..."]
        request := some ⟨tickers, start, stop⟩ }

/-! ### Helper lemmas about the embedding -/

theorem seqCells_eq_some_iff {cs : List Cell} {vs : List ℝ} :
    seqCells cs = some vs ↔ cs = vs.map some := by
  induction cs generalizing vs with
  | nil => cases vs <;> simp [seqCells]
  | cons c rest ih =>
    cases c with
    | none => cases vs <;> simp [seqCells]
    | some x =>
      cases vs with
      | nil => simp [seqCells, Option.map_eq_some']
      | cons v vrest =>
        simp only [seqCells, Option.map_eq_some', List.map_cons, List.cons.injEq,
          Option.some.injEq]
        constructor
        · rintro ⟨a, ha, hx, hav⟩
          subst hav
          exact ⟨hx, ih.mp ha⟩
        · rintro ⟨hx, hr⟩
          exact ⟨vrest, ih.mpr hr, hx, rfl⟩

theorem seqCells_length {cs : List Cell} {vs : List ℝ}
    (h : seqCells cs = some vs) : vs.length = cs.length := by
  rw [seqCells_eq_some_iff] at h
  simp [h]

theorem length_trailingWindow (w t : ℕ) (xs : Series) :
    (trailingWindow w t xs).length = min (t + 1) xs.length - (t + 1 - w) := by
  simp [trailingWindow, List.length_drop, List.length_take]

theorem length_trailingWindow_le (w t : ℕ) (xs : Series) :
    (trailingWindow w t xs).length ≤ w := by
  rw [length_trailingWindow]
  omega

theorem length_logReturnsCol (p : Series) :
    (logReturnsCol p).length = p.length := by
  simp only [logReturnsCol, List.length_zipWith, shift1, List.length_cons,
    List.length_dropLast]
  omega

theorem rollingStdCol_getElem? (w : ℕ) (xs : Series) (t : ℕ) (ht : t < xs.length) :
    (rollingStdCol w xs)[t]? = some (
      if (trailingWindow w t xs).length < w then none
      else match seqCells (trailingWindow w t xs) with
        | none => none
        | some vals => sampleStd? vals) := by
  simp only [rollingStdCol, List.getElem?_map, List.getElem?_range ht, Option.map_some']

theorem length_rollingStdCol (w : ℕ) (xs : Series) :
    (rollingStdCol w xs).length = xs.length := by
  simp [rollingStdCol]

theorem scaleCol_getElem? (c : ℝ) (xs : Series) (t : ℕ) :
    (scaleCol c xs)[t]? = xs[t]?.map (Option.map (· * c)) := by
  simp [scaleCol, List.getElem?_map]

theorem length_scaleCol (c : ℝ) (xs : Series) :
    (scaleCol c xs).length = xs.length := by
  simp [scaleCol]

theorem shift1_getElem?_zero (p : Series) : (shift1 p)[0]? = some none := by
  simp [shift1]

theorem shift1_getElem?_succ (p : Series) (t : ℕ) :
    (shift1 p)[t + 1]? = p.dropLast[t]? := by
  simp [shift1]

/-- The volatility table is the column-wise map of the scaled rolling
standard deviation of the log returns. -/
theorem calculate_volatility_fst_getElem? (data : List Series) (w s : ℕ)
    (pcol : Series) (hs : data[s]? = some pcol) :
    ((calculate_volatility data w).1)[s]? =
      some (scaleCol (Real.sqrt 252) (rollingStdCol w (logReturnsCol pcol))) := by
  simp [calculate_volatility, List.getElem?_map, hs]

/-- The returns table is the column-wise log-return map. -/
theorem calculate_volatility_snd_getElem? (data : List Series) (w s : ℕ)
    (pcol : Series) (hs : data[s]? = some pcol) :
    ((calculate_volatility data w).2)[s]? = some (logReturnsCol pcol) := by
  simp [calculate_volatility, List.getElem?_map, hs]

/-- The log-return values of a fully-defined price column:
entry `t` is `ln(ps[t+1] / ps[t])`. -/
noncomputable def logReturnVals (ps : List ℝ) : List ℝ :=
  List.zipWith (fun prev cur => Real.log (cur / prev)) ps ps.tail

theorem length_logReturnVals (ps : List ℝ) :
    (logReturnVals ps).length = ps.length - 1 := by
  simp only [logReturnVals, List.length_zipWith, List.length_tail]
  omega

theorem zipWith_cons_dropLast {γ : Type} (f : ℝ → ℝ → γ) (p : ℝ) (rest : List ℝ) :
    List.zipWith f rest ((p :: rest).dropLast) =
      List.zipWith (fun b a => f a b) (p :: rest) rest := by
  induction rest generalizing p with
  | nil => simp
  | cons q rest2 ih =>
    rw [List.dropLast_cons_of_ne_nil (List.cons_ne_nil q rest2)]
    simp only [List.zipWith_cons_cons]
    rw [ih]

/-- On a column with no missing prices, the log-return column is one
missing cell followed by the defined consecutive-ratio logs. -/
theorem logReturnsCol_map_some (p : ℝ) (rest : List ℝ) :
    logReturnsCol ((p :: rest).map some) =
      none :: (logReturnVals (p :: rest)).map some := by
  simp only [logReturnsCol, shift1]
  rw [← List.map_dropLast some (p :: rest)]
  simp only [List.map_cons]
  rw [List.zipWith_cons_cons]
  have h1 : cellLogDiv (some p) none = none := rfl
  rw [h1]
  congr 1
  rw [List.zipWith_map_left, List.zipWith_map_right]
  have h2 : (fun (a b : ℝ) => cellLogDiv (some a) (some b)) =
      fun a b => some (Real.log (a / b)) := rfl
  rw [h2]
  rw [zipWith_cons_dropLast (fun a b => some (Real.log (a / b))) p rest]
  rw [logReturnVals, List.map_zipWith]
  rfl

/-- Row 0 of the log-return column of a nonempty price column is
missing. -/
theorem logReturnsCol_getElem?_zero (p : Series) (hp : p ≠ []) :
    (logReturnsCol p)[0]? = some none := by
  obtain ⟨c, rest, rfl⟩ := List.exists_cons_of_ne_nil hp
  simp only [logReturnsCol, List.getElem?_zipWith, shift1_getElem?_zero,
    List.getElem?_cons_zero]
  cases c <;> rfl

/-- Row `t+1` of the log-return column, when both the price at `t+1` and
at `t` exist as rows: the cell is `cellLogDiv` of the two price cells. -/
theorem logReturnsCol_getElem?_succ (p : Series) (t : ℕ) (a b : Cell)
    (ha : p[t + 1]? = some a) (hb : p[t]? = some b) :
    (logReturnsCol p)[t + 1]? = some (cellLogDiv a b) := by
  have ht1 : t + 1 < p.length := by
    by_contra h
    rw [List.getElem?_eq_none (by omega)] at ha
    exact Option.noConfusion ha
  simp only [logReturnsCol, List.getElem?_zipWith, shift1_getElem?_succ,
    List.getElem?_dropLast, ha]
  rw [if_pos (by omega), hb]

/-- A volatility cell at a row whose trailing window starts with a
missing return is missing; in particular every row `t < w` of a column
whose return at row 0 is missing. -/
theorem rollingStdCol_getElem?_head_none (w : ℕ) (rest : Series) (t : ℕ)
    (htw : t < w) (ht : t < (none :: rest : Series).length) :
    (rollingStdCol w (none :: rest))[t]? = some none := by
  rw [rollingStdCol_getElem? w (none :: rest) t ht]
  have hwin : trailingWindow w t (none :: rest) = none :: rest.take t := by
    simp only [trailingWindow]
    rw [show t + 1 - w = 0 by omega, List.drop_zero, List.take_succ_cons]
  rw [hwin]
  split
  · rfl
  · rfl

/-- Characterization of a defined cell of the scaled rolling standard
deviation: the whole trailing window of `w` rows exists and is defined,
the window width is at least 2, and the value is the sample standard
deviation of the window times the scale factor. -/
theorem scaled_rollingStd_defined (w : ℕ) (c : ℝ) (xs : Series) (t : ℕ) (v : ℝ)
    (h : (scaleCol c (rollingStdCol w xs))[t]? = some (some v)) :
    ∃ vals, seqCells (trailingWindow w t xs) = some vals ∧ vals.length = w ∧
      2 ≤ w ∧ v = Real.sqrt (sqDevSum vals / ((w : ℝ) - 1)) * c := by
  rw [scaleCol_getElem?] at h
  obtain ⟨cell, hcell, hmap⟩ := Option.map_eq_some'.mp h
  obtain ⟨u, hu, huv⟩ := Option.map_eq_some'.mp hmap
  subst hu huv
  have ht : t < xs.length := by
    by_contra hle
    have hlen : (rollingStdCol w xs).length ≤ t := by
      rw [length_rollingStdCol]
      omega
    rw [List.getElem?_eq_none hlen] at hcell
    exact Option.noConfusion hcell
  rw [rollingStdCol_getElem? w xs t ht] at hcell
  rw [Option.some.injEq] at hcell
  by_cases hlen : (trailingWindow w t xs).length < w
  · rw [if_pos hlen] at hcell
    exact Option.noConfusion hcell
  · rw [if_neg hlen] at hcell
    rcases hseq : seqCells (trailingWindow w t xs) with _ | vals
    · rw [hseq] at hcell
      exact Option.noConfusion hcell
    · rw [hseq] at hcell
      have hlw : vals.length = w := by
        have h1 := seqCells_length hseq
        have h2 := length_trailingWindow_le w t xs
        omega
      simp only [sampleStd?] at hcell
      by_cases hsmall : vals.length ≤ 1
      · rw [if_pos hsmall] at hcell
        exact Option.noConfusion hcell
      · rw [if_neg hsmall] at hcell
        rw [Option.some.injEq] at hcell
        refine ⟨vals, rfl, hlw, by omega, ?_⟩
        rw [← hcell, hlw]

/-- With a window of at most one row, every rolling-standard-deviation
cell is missing: either the window check or the `ddof = 1` sample-size
guard (the float `0/0`) yields NaN. -/
theorem mem_rollingStdCol_none (w : ℕ) (hw : w ≤ 1) (xs : Series) (cell : Cell)
    (hm : cell ∈ rollingStdCol w xs) : cell = none := by
  simp only [rollingStdCol, List.mem_map] at hm
  obtain ⟨t, _, rfl⟩ := hm
  split
  · rfl
  · rcases hseq : seqCells (trailingWindow w t xs) with _ | vals
    · rfl
    · simp only [sampleStd?]
      rw [if_pos]
      have h1 := seqCells_length hseq
      have h2 := length_trailingWindow_le w t xs
      omega

theorem scaled_rollingStd_all_none_of_le_one (w : ℕ) (hw : w ≤ 1) (c : ℝ)
    (xs : Series) :
    ∀ cell ∈ scaleCol c (rollingStdCol w xs), cell = none := by
  intro cell hcell
  simp only [scaleCol, List.mem_map] at hcell
  obtain ⟨c2, hc2, rfl⟩ := hcell
  rw [mem_rollingStdCol_none w hw xs c2 hc2]
  rfl

/-! ### Claim theorems -/

/-- **C1**: for every price table and window `w`, each defined cell
`(t, s)` of the volatility table returned by `calculate_volatility`
equals the sample standard deviation of the trailing `w` log-returns of
column `s` ending at row `t`, multiplied by `√252`, and the cell is
undefined (missing) for the first `w − 1` rows of each column. -/
theorem c1_volatility_cells (data : List Series) (w s t : ℕ) (pcol vcol : Series)
    (hp : data[s]? = some pcol)
    (hv : ((calculate_volatility data w).1)[s]? = some vcol) :
    (t < w - 1 → t < vcol.length → vcol[t]? = some none) ∧
    (∀ v, vcol[t]? = some (some v) →
      ∃ vals, seqCells (trailingWindow w t (logReturnsCol pcol)) = some vals ∧
        vals.length = w ∧ 2 ≤ w ∧
        v = Real.sqrt (sqDevSum vals / ((w : ℝ) - 1)) * Real.sqrt 252) := by
  have hv' := calculate_volatility_fst_getElem? data w s pcol hp
  rw [hv, Option.some.injEq] at hv'
  subst hv'
  constructor
  · intro htw htl
    rw [length_scaleCol, length_rollingStdCol] at htl
    rw [scaleCol_getElem?, rollingStdCol_getElem? _ _ _ htl]
    have hshort : (trailingWindow w t (logReturnsCol pcol)).length < w := by
      have := length_trailingWindow w t (logReturnsCol pcol)
      omega
    rw [if_pos hshort]
    rfl
  · intro v hvv
    exact scaled_rollingStd_defined w (Real.sqrt 252) (logReturnsCol pcol) t v hvv

theorem c1_volatility_cells_witness :
    ((0 < 2 - 1 →
      0 < (scaleCol (Real.sqrt 252) (rollingStdCol 2 (logReturnsCol
        [some 1, some 2]))).length →
      (scaleCol (Real.sqrt 252) (rollingStdCol 2 (logReturnsCol
        [some 1, some 2])))[0]? = some none) ∧
    (∀ v, (scaleCol (Real.sqrt 252) (rollingStdCol 2 (logReturnsCol
        [some 1, some 2])))[0]? = some (some v) →
      ∃ vals, seqCells (trailingWindow 2 0 (logReturnsCol [some 1, some 2])) =
          some vals ∧ vals.length = 2 ∧ 2 ≤ 2 ∧
        v = Real.sqrt (sqDevSum vals / ((2 : ℝ) - 1)) * Real.sqrt 252)) :=
  c1_volatility_cells [[some 1, some 2]] 2 0 0 [some 1, some 2]
    (scaleCol (Real.sqrt 252) (rollingStdCol 2 (logReturnsCol [some 1, some 2])))
    rfl rfl

/-- **C2**: the log-return table of `calculate_volatility` has, per
column, cell `t ≥ 1` equal to `ln(price[t] / price[t−1])` when both
prices are present; the cell at row 0 and at any row adjacent to a
missing price is missing (not zero and not an error). -/
theorem c2_log_return_table (prices : Series) :
    (logReturnsCol prices).length = prices.length ∧
    (prices ≠ [] → (logReturnsCol prices)[0]? = some none) ∧
    (∀ t x y, prices[t + 1]? = some (some x) → prices[t]? = some (some y) →
      (logReturnsCol prices)[t + 1]? = some (some (Real.log (x / y)))) ∧
    (∀ t a b, prices[t + 1]? = some a → prices[t]? = some b →
      (a = none ∨ b = none) → (logReturnsCol prices)[t + 1]? = some none) := by
  refine ⟨length_logReturnsCol prices,
    fun hp => logReturnsCol_getElem?_zero prices hp, ?_, ?_⟩
  · intro t x y hx hy
    rw [logReturnsCol_getElem?_succ prices t (some x) (some y) hx hy]
    rfl
  · intro t a b ha hb hor
    rw [logReturnsCol_getElem?_succ prices t a b ha hb]
    rcases hor with h | h
    · subst h
      cases b <;> rfl
    · subst h
      cases a <;> rfl

theorem c2_log_return_table_witness :
    (logReturnsCol [some 2, none, some 3] : Series)[1]? = some none ∧
    (logReturnsCol [some 4, some 2] : Series)[1]? =
      some (some (Real.log (2 / 4))) :=
  ⟨(c2_log_return_table [some 2, none, some 3]).2.2.2 0 none (some 2)
      rfl rfl (Or.inl rfl),
   (c2_log_return_table [some 4, some 2]).2.2.1 0 2 4 rfl rfl⟩

/-- **C9**: `calculate_volatility` has no side effects: the state-passing
rendering of its body leaves the input price table unchanged and its only
product is the pair of fresh output tables. -/
theorem c9_no_mutation (data : List Series) (w : ℕ) :
    (calculate_volatility_frame data w).2 = data ∧
    (calculate_volatility_frame data w).1 = calculate_volatility data w :=
  ⟨rfl, rfl⟩

/-- **C10**: `calculate_volatility` is deterministic: two calls on equal
price tables and equal windows return equal (volatility, returns)
pairs. -/
theorem c10_deterministic (d1 d2 : List Series) (w1 w2 : ℕ)
    (hd : d1 = d2) (hw : w1 = w2) :
    calculate_volatility d1 w1 = calculate_volatility d2 w2 := by
  subst hd
  subst hw
  rfl

theorem c10_deterministic_witness :
    calculate_volatility [[some 1, some 2]] 21 =
      calculate_volatility [[some 1, some 2]] 21 :=
  c10_deterministic [[some 1, some 2]] [[some 1, some 2]] 21 21 rfl rfl

/-- On a concrete three-day table, any window of at most one row yields
the all-missing volatility table. -/
theorem vol_table_three_days_all_none (w : ℕ) (hw : w ≤ 1) :
    (calculate_volatility [[some 100, some 101, some 102]] w).1 =
      [[none, none, none]] := by
  show [scaleCol (Real.sqrt 252) (rollingStdCol w (logReturnsCol
    [some 100, some 101, some 102]))] = [[none, none, none]]
  rw [List.cons.injEq]
  refine ⟨?_, rfl⟩
  have hall := scaled_rollingStd_all_none_of_le_one w hw (Real.sqrt 252)
    (logReturnsCol [some 100, some 101, some 102])
  have hlen : (scaleCol (Real.sqrt 252) (rollingStdCol w (logReturnsCol
      [some 100, some 101, some 102]))).length = 3 := by
    rw [length_scaleCol, length_rollingStdCol, length_logReturnsCol]
    rfl
  have heq := List.eq_replicate_iff.mpr ⟨hlen, hall⟩
  rw [heq]
  rfl

/-- **C3 (counterexample)**: the claim says `calculate_volatility` with
`window = 0` or `window = 1` fails with a clear InvalidConfiguration
error and never silently returns a table of NaN.  In fact the function
performs no validation at all and returns normally: on a concrete
three-day price table both windows silently yield an all-missing (NaN)
volatility table. -/
theorem c3_counterexample :
    (calculate_volatility [[some 100, some 101, some 102]] 1).1 =
      [[none, none, none]] ∧
    (calculate_volatility [[some 100, some 101, some 102]] 0).1 =
      [[none, none, none]] :=
  ⟨vol_table_three_days_all_none 1 (by omega),
   vol_table_three_days_all_none 0 (by omega)⟩

/-- **C3 (amended)**: `calculate_volatility` performs no window
validation; with `window = 0` or `window = 1` it returns normally and
every cell of the volatility table is silently NaN (missing), because
the pandas sample standard deviation (`ddof = 1`) of fewer than two
points is a float `0/0`. -/
theorem c3_amended_window_le_one_all_nan (data : List Series) (w : ℕ)
    (hw : w ≤ 1) :
    ∀ vcol ∈ (calculate_volatility data w).1, ∀ cell ∈ vcol, cell = none := by
  intro vcol hvcol
  simp only [calculate_volatility, List.mem_map] at hvcol
  obtain ⟨lr, _, rfl⟩ := hvcol
  exact scaled_rollingStd_all_none_of_le_one w hw (Real.sqrt 252) lr

theorem headI_mem_of_ne_nil {α : Type} [Inhabited α] {l : List α}
    (h : l ≠ []) : l.headI ∈ l := by
  cases l with
  | nil => exact absurd rfl h
  | cons a t => exact List.mem_cons_self a t

theorem c3_amended_window_le_one_all_nan_witness :
    (scaleCol (Real.sqrt 252) (rollingStdCol 1 (logReturnsCol
      [some 100, some 101, some 102]))).headI = none :=
  c3_amended_window_le_one_all_nan [[some 100, some 101, some 102]] 1
    (by omega) _ (List.mem_cons_self _ _) _
    (headI_mem_of_ne_nil (by
      apply List.ne_nil_of_length_pos
      rw [length_scaleCol, length_rollingStdCol, length_logReturnsCol]
      norm_num))

/-- **C4 (counterexample)**: the claim says the fetch operation fails
with InvalidConfiguration on an empty ticker set before any network
call.  In fact `get_data` validates nothing: with an empty ticker set it
returns normally, having printed its progress message and issued the
download request for the empty list. -/
theorem c4_counterexample :
    get_data [] "2025-01-01" "2026-01-13" =
      .ok { printed := ["Fetching data for []..."]
            request := some ⟨[], "2025-01-01", "2026-01-13"⟩ } := rfl

/-- **C4 (amended)**: `get_data` performs no ticker validation and never
raises InvalidConfiguration: for every ticker list — the empty one
included — it prints the progress message and unconditionally issues the
download request. -/
theorem c4_amended_no_validation (tickers : List String) (start stop : String) :
    get_data tickers start stop =
      .ok { printed := ["Fetching data for " ++ toString tickers ++ "..."]
            request := some ⟨tickers, start, stop⟩ } := rfl

/-- **C5**: on a price table with no missing values and a valid window
`w ≥ 2`, `calculate_volatility` produces, per column, a return column
with exactly one fewer valid (defined) row than the price column, a
volatility column undefined at every row before the window fills
(covering in particular its first `w − 1` valid-row positions), and all
defined volatility values non-negative (finite, being reals). -/
theorem c5_no_missing_shape (cols : List (List ℝ)) (w : ℕ) (hw : 2 ≤ w)
    (s : ℕ) (ps : List ℝ) (hs : cols[s]? = some ps) :
    ∃ rcol vcol,
      ((calculate_volatility (cols.map (List.map some)) w).2)[s]? = some rcol ∧
      ((calculate_volatility (cols.map (List.map some)) w).1)[s]? = some vcol ∧
      (rcol.filterMap id).length = ps.length - 1 ∧
      (∀ t : ℕ, t < w → t < vcol.length → vcol[t]? = some none) ∧
      (∀ (t : ℕ) (v : ℝ), vcol[t]? = some (some v) → 0 ≤ v) := by
  have hs' : (cols.map (List.map some))[s]? = some (ps.map some) := by
    rw [List.getElem?_map, hs]
    rfl
  refine ⟨logReturnsCol (ps.map some),
    scaleCol (Real.sqrt 252) (rollingStdCol w (logReturnsCol (ps.map some))),
    calculate_volatility_snd_getElem? _ w s _ hs',
    calculate_volatility_fst_getElem? _ w s _ hs', ?_, ?_, ?_⟩
  · cases ps with
    | nil => rfl
    | cons p rest =>
      rw [logReturnsCol_map_some]
      simp [length_logReturnVals]
  · intro t htw htl
    rw [length_scaleCol, length_rollingStdCol, length_logReturnsCol,
      List.length_map] at htl
    cases ps with
    | nil => simp at htl
    | cons p rest =>
      rw [scaleCol_getElem?, logReturnsCol_map_some,
        rollingStdCol_getElem?_head_none w _ t htw
          (by
            rw [← logReturnsCol_map_some, length_logReturnsCol, List.length_map]
            exact htl)]
      rfl
  · intro t v hv
    obtain ⟨vals, -, -, -, hval⟩ :=
      scaled_rollingStd_defined w (Real.sqrt 252) _ t v hv
    rw [hval]
    exact mul_nonneg (Real.sqrt_nonneg _) (Real.sqrt_nonneg _)

theorem c5_no_missing_shape_witness :
    ∃ rcol vcol,
      ((calculate_volatility [[(1 : ℝ), 2, 3].map some] 2).2)[0]? = some rcol ∧
      ((calculate_volatility [[(1 : ℝ), 2, 3].map some] 2).1)[0]? = some vcol ∧
      (rcol.filterMap id).length = ([(1 : ℝ), 2, 3]).length - 1 ∧
      (∀ t : ℕ, t < 2 → t < vcol.length → vcol[t]? = some none) ∧
      (∀ (t : ℕ) (v : ℝ), vcol[t]? = some (some v) → 0 ≤ v) := by
  have h := c5_no_missing_shape [[(1 : ℝ), 2, 3]] 2 (by omega) 0 [(1 : ℝ), 2, 3] rfl
  simpa using h

/-! ### The constant-price scenario (C8) -/

theorem zipWith_replicate {α β γ : Type} (f : α → β → γ) (m k : ℕ) (a : α)
    (b : β) :
    List.zipWith f (List.replicate m a) (List.replicate k b) =
      List.replicate (min m k) (f a b) := by
  induction m generalizing k with
  | zero => simp
  | succ m ih =>
    cases k with
    | zero => simp
    | succ k =>
      simp only [List.replicate_succ, List.zipWith_cons_cons, ih,
        Nat.succ_min_succ]

theorem logReturnVals_replicate (n : ℕ) (c : ℝ) :
    logReturnVals (List.replicate n c) =
      List.replicate (n - 1) (Real.log (c / c)) := by
  rw [logReturnVals, List.tail_replicate, zipWith_replicate]
  congr 1
  omega

theorem seqCells_replicate_some (k : ℕ) (v : ℝ) :
    seqCells (List.replicate k (some v)) = some (List.replicate k v) := by
  rw [seqCells_eq_some_iff, List.map_replicate]

theorem mean_replicate (w : ℕ) (hw : w ≠ 0) (v : ℝ) :
    mean (List.replicate w v) = v := by
  rw [mean, List.sum_replicate, List.length_replicate, nsmul_eq_mul]
  exact mul_div_cancel_left₀ v (Nat.cast_ne_zero.mpr hw)

theorem sampleStd?_replicate (w : ℕ) (hw : 2 ≤ w) (v : ℝ) :
    sampleStd? (List.replicate w v) = some 0 := by
  simp only [sampleStd?, List.length_replicate]
  rw [if_neg (by omega)]
  have hd : sqDevSum (List.replicate w v) = 0 := by
    simp [sqDevSum, mean_replicate w (by omega) v]
  rw [hd]
  simp

/-- On a column whose return at row 0 is missing and all later returns
equal a constant, the rolling standard deviation is exactly 0 from row
`w` on. -/
theorem rollingStdCol_getElem?_const (w : ℕ) (hw : 2 ≤ w) (m : ℕ) (v : ℝ)
    (t : ℕ) (h1 : w ≤ t) (h2 : t ≤ m) :
    (rollingStdCol w (none :: List.replicate m (some v)))[t]? =
      some (some 0) := by
  have ht : t < (none :: List.replicate m (some v) : Series).length := by
    simp only [List.length_cons, List.length_replicate]
    omega
  rw [rollingStdCol_getElem? _ _ _ ht]
  have hwin : trailingWindow w t (none :: List.replicate m (some v)) =
      List.replicate w (some v) := by
    rw [trailingWindow, List.take_succ_cons, List.take_replicate,
      show min t m = t by omega, show t + 1 - w = (t - w) + 1 by omega,
      List.drop_succ_cons, List.drop_replicate, show t - (t - w) = w by omega]
  rw [hwin]
  rw [if_neg (by simp)]
  simp only [seqCells_replicate_some, sampleStd?_replicate w hw v]

/-- The log-return table of the 30-day constant-price table: one missing
cell, then twenty-nine zero returns. -/
theorem const30_ret_col :
    (calculate_volatility [List.replicate 30 (some (100 : ℝ))] 21).2 =
      [none :: List.replicate 29 (some 0)] := by
  show [logReturnsCol (List.replicate 30 (some (100 : ℝ)))] = _
  rw [List.cons.injEq]
  refine ⟨?_, rfl⟩
  rw [← List.map_replicate (f := some) (n := 30) (a := (100 : ℝ)),
    show List.replicate 30 (100 : ℝ) = 100 :: List.replicate 29 100 from rfl,
    logReturnsCol_map_some,
    show (100 : ℝ) :: List.replicate 29 100 = List.replicate 30 100 from rfl,
    logReturnVals_replicate]
  norm_num [Real.log_one]

/-- The volatility table of the 30-day constant-price table with window
21: missing through row 20, exactly 0 from row 21 through row 29. -/
theorem const30_vol_col :
    (calculate_volatility [List.replicate 30 (some (100 : ℝ))] 21).1 =
      [List.replicate 21 none ++ List.replicate 9 (some 0)] := by
  have hlr : logReturnsCol (List.replicate 30 (some (100 : ℝ))) =
      none :: List.replicate 29 (some 0) := by
    have h := const30_ret_col
    rw [show (calculate_volatility [List.replicate 30 (some (100 : ℝ))] 21).2 =
      [logReturnsCol (List.replicate 30 (some (100 : ℝ)))] from rfl] at h
    exact (List.cons.injEq _ _ _ _ ▸ h).1
  show [scaleCol (Real.sqrt 252) (rollingStdCol 21 (logReturnsCol
    (List.replicate 30 (some (100 : ℝ)))))] = _
  rw [List.cons.injEq]
  refine ⟨?_, rfl⟩
  rw [hlr]
  have hroll : rollingStdCol 21 (none :: List.replicate 29 (some (0 : ℝ))) =
      List.replicate 21 none ++ List.replicate 9 (some 0) := by
    apply List.ext_getElem?
    intro t
    rcases lt_or_ge t 21 with h21 | h21
    · rw [rollingStdCol_getElem?_head_none 21 _ t h21
        (by simp only [List.length_cons, List.length_replicate]; omega)]
      rw [List.getElem?_append, if_pos (by simp only [List.length_replicate]; omega),
        List.getElem?_replicate, if_pos h21]
    · rcases lt_or_ge t 30 with h30 | h30
      · rw [rollingStdCol_getElem?_const 21 (by omega) 29 0 t h21 (by omega)]
        rw [List.getElem?_append,
          if_neg (by simp only [List.length_replicate]; omega),
          List.length_replicate, List.getElem?_replicate, if_pos (by omega)]
      · rw [List.getElem?_eq_none (by
          simp only [length_rollingStdCol, List.length_cons,
            List.length_replicate]
          omega)]
        rw [List.getElem?_eq_none (by
          simp only [List.length_append, List.length_replicate]
          omega)]
  rw [hroll]
  show List.map (Option.map (· * Real.sqrt 252))
    (List.replicate 21 none ++ List.replicate 9 (some 0)) = _
  rw [List.map_append, List.map_replicate, List.map_replicate]
  norm_num

/-- **C8 (counterexample)**: the claim says the rolling volatility of the
30-day constant-price table (window 21) is defined from day 20 onward.
In fact the cell at day 20 is missing: its 21-row window still contains
the undefined day-0 return, so pandas (`min_periods = window`) yields
NaN there; the first defined row is day 21. -/
theorem c8_counterexample :
    ((calculate_volatility [List.replicate 30 (some (100 : ℝ))] 21).1).headI[20]? =
      some none := by
  rw [const30_vol_col]
  show (List.replicate 21 none ++ List.replicate 9 (some 0) : Series)[20]? = _
  rw [List.getElem?_append, if_pos (by simp only [List.length_replicate]; omega),
    List.getElem?_replicate, if_pos (by omega)]

/-- **C8 (amended)**: for the price table of 30 trading days with one
ticker at constant price 100.0 and window 21, the log returns are
missing on day 0 and exactly 0.0 on days 1 through 29, and the rolling
volatility is missing through day 20 and defined and exactly 0.0 from
day 21 through day 29. -/
theorem c8_amended_const_table :
    (calculate_volatility [List.replicate 30 (some (100 : ℝ))] 21).2 =
      [none :: List.replicate 29 (some 0)] ∧
    (calculate_volatility [List.replicate 30 (some (100 : ℝ))] 21).1 =
      [List.replicate 21 none ++ List.replicate 9 (some 0)] :=
  ⟨const30_ret_col, const30_vol_col⟩

/-! ### Round trip of log returns (C6) -/

theorem logReturnVals_getElem? (ps : List ℝ) (t : ℕ) (h : t + 1 < ps.length) :
    (logReturnVals ps)[t]? =
      some (Real.log (ps.getD (t + 1) 0 / ps.getD t 0)) := by
  rw [logReturnVals, List.getElem?_zipWith, List.getElem?_tail]
  rw [List.getElem?_eq_getElem (show t < ps.length by omega),
    List.getElem?_eq_getElem h,
    List.getD_eq_getElem ps 0 (show t < ps.length by omega),
    List.getD_eq_getElem ps 0 h]

theorem exp_cumsum_logReturnVals (ps : List ℝ) (hpos : ∀ x ∈ ps, 0 < x) :
    ∀ t, t < ps.length →
      ps.headI * Real.exp (((logReturnVals ps).take t).sum) = ps.getD t 0 := by
  intro t
  induction t with
  | zero =>
    intro h0
    cases ps with
    | nil => simp at h0
    | cons p rest => simp
  | succ t ih =>
    intro hst
    have ht : t < ps.length := by omega
    have htv : t < (logReturnVals ps).length := by
      rw [length_logReturnVals]
      omega
    have hval : (logReturnVals ps)[t] =
        Real.log (ps.getD (t + 1) 0 / ps.getD t 0) := by
      have h? := logReturnVals_getElem? ps t hst
      rw [List.getElem?_eq_getElem htv, Option.some.injEq] at h?
      exact h?
    have hmem1 : ps.getD (t + 1) 0 ∈ ps := by
      rw [List.getD_eq_getElem ps 0 hst]
      exact List.getElem_mem hst
    have hmem0 : ps.getD t 0 ∈ ps := by
      rw [List.getD_eq_getElem ps 0 ht]
      exact List.getElem_mem ht
    have hratio : 0 < ps.getD (t + 1) 0 / ps.getD t 0 :=
      div_pos (hpos _ hmem1) (hpos _ hmem0)
    rw [List.sum_take_succ _ t htv, hval, Real.exp_add, ← mul_assoc, ih ht,
      Real.exp_log hratio, mul_comm, div_mul_cancel₀ _ (ne_of_gt (hpos _ hmem0))]

/-- **C6**: for a price column with no missing prices (all positive),
`exp` of the cumulative sum of the log returns produced by
`calculate_volatility` reconstructs the price at each row, normalized by
the starting price: `p₀ · exp(Σ returns through row t) = pₜ`. -/
theorem c6_log_return_round_trip (ps : List ℝ) (w : ℕ)
    (hpos : ∀ x ∈ ps, 0 < x) (t : ℕ) (ht : t < ps.length) :
    (calculate_volatility [ps.map some] w).2 = [logReturnsCol (ps.map some)] ∧
    ps.headI * Real.exp
        ((((logReturnsCol (ps.map some)).take (t + 1)).filterMap id).sum) =
      ps.getD t 0 := by
  refine ⟨rfl, ?_⟩
  cases ps with
  | nil => simp at ht
  | cons p rest =>
    rw [logReturnsCol_map_some, List.take_succ_cons, List.filterMap_cons]
    show (p :: rest).headI * Real.exp
      ((((logReturnVals (p :: rest)).map some).take t).filterMap id).sum = _
    rw [← List.map_take, List.filterMap_map]
    have hcomp : (id ∘ some : ℝ → Option ℝ) = some := rfl
    rw [hcomp, List.filterMap_some]
    exact exp_cumsum_logReturnVals (p :: rest) hpos t ht

theorem c6_log_return_round_trip_witness :
    (calculate_volatility [[(1 : ℝ), 2].map some] 21).2 =
      [logReturnsCol ([(1 : ℝ), 2].map some)] ∧
    ([(1 : ℝ), 2]).headI * Real.exp
        ((((logReturnsCol ([(1 : ℝ), 2].map some)).take 2).filterMap id).sum) =
      ([(1 : ℝ), 2]).getD 1 0 :=
  c6_log_return_round_trip [1, 2] 21 (by norm_num) 1 (by norm_num)

/-! ### Correlation matrix (C7) -/

theorem sqDevSum_nonneg (l : List ℝ) : 0 ≤ sqDevSum l := by
  apply List.sum_nonneg
  intro x hx
  obtain ⟨y, -, rfl⟩ := List.mem_map.mp hx
  exact sq_nonneg _

theorem pairedRows_swap (xs : Series) :
    ∀ ys, pairedRows ys xs = (pairedRows xs ys).map Prod.swap := by
  induction xs with
  | nil => intro ys; cases ys <;> simp [pairedRows]
  | cons a xs ih =>
    intro ys
    cases ys with
    | nil => simp [pairedRows]
    | cons b ys =>
      have htail := ih ys
      simp only [pairedRows] at htail ⊢
      rw [List.zipWith_cons_cons, List.zipWith_cons_cons, List.filterMap_cons,
        List.filterMap_cons, List.map_filterMap] at *
      cases a <;> cases b <;>
        simp_all [List.map_filterMap]

theorem pearson?_map_swap (ps : List (ℝ × ℝ)) :
    pearson? (ps.map Prod.swap) = pearson? ps := by
  simp only [pearson?, List.map_map]
  have hfst : (Prod.fst ∘ Prod.swap : ℝ × ℝ → ℝ) = Prod.snd := rfl
  have hsnd : (Prod.snd ∘ Prod.swap : ℝ × ℝ → ℝ) = Prod.fst := rfl
  rw [hfst, hsnd]
  by_cases h : sqDevSum (ps.map Prod.fst) = 0 ∨ sqDevSum (ps.map Prod.snd) = 0
  · rw [if_pos (Or.symm h), if_pos h]
  · rw [if_neg (fun hc => h (Or.symm hc)), if_neg h]
    congr 1
    have hfun : ((fun p : ℝ × ℝ =>
          (p.1 - mean (ps.map Prod.snd)) * (p.2 - mean (ps.map Prod.fst)))
            ∘ Prod.swap) =
        fun p : ℝ × ℝ =>
          (p.1 - mean (ps.map Prod.fst)) * (p.2 - mean (ps.map Prod.snd)) := by
      funext p
      show (p.2 - mean (ps.map Prod.snd)) * (p.1 - mean (ps.map Prod.fst)) = _
      ring
    rw [hfun, mul_comm (Real.sqrt (sqDevSum (ps.map Prod.snd)))]

theorem pairedRows_self (xs : Series) :
    pairedRows xs xs = (xs.filterMap id).map (fun v => (v, v)) := by
  induction xs with
  | nil => rfl
  | cons a xs ih =>
    cases a <;>
      simp_all [pairedRows, List.filterMap_cons]

theorem pearson?_self_diag (vals : List ℝ) (hnd : sqDevSum vals ≠ 0) :
    pearson? (vals.map (fun v => (v, v))) = some 1 := by
  simp only [pearson?, List.map_map]
  have hfst : ((Prod.fst ∘ fun v : ℝ => (v, v)) : ℝ → ℝ) = id := rfl
  have hsnd : ((Prod.snd ∘ fun v : ℝ => (v, v)) : ℝ → ℝ) = id := rfl
  rw [hfst, hsnd, List.map_id]
  rw [if_neg (by tauto)]
  have hfun : ((fun p : ℝ × ℝ => (p.1 - mean vals) * (p.2 - mean vals)) ∘
      fun v : ℝ => (v, v)) = fun x : ℝ => (x - mean vals) ^ 2 := by
    funext v
    show (v - mean vals) * (v - mean vals) = _
    ring
  rw [hfun]
  rw [show (List.map (fun x : ℝ => (x - mean vals) ^ 2) vals).sum =
    sqDevSum vals from rfl]
  rw [Real.mul_self_sqrt (sqDevSum_nonneg vals), div_self hnd]

theorem mem_of_getElem?_some {α : Type} {l : List α} {i : ℕ} {a : α}
    (h : l[i]? = some a) : a ∈ l := by
  have hi : i < l.length := by
    by_contra hle
    rw [List.getElem?_eq_none (by omega)] at h
    exact Option.noConfusion h
  rw [List.getElem?_eq_getElem hi, Option.some.injEq] at h
  rw [← h]
  exact List.getElem_mem hi

/-- **C7**: for a non-degenerate log-return table (each column's defined
values are not all equal), the matrix returned by `plot_correlation` has
each entry `(i, j)` equal to the Pearson correlation of columns `i` and
`j` computed over the pairwise-complete rows of the full history, is
symmetric, and carries exactly 1 on the diagonal. -/
theorem c7_correlation_matrix (cols : List Series)
    (hnd : ∀ col ∈ cols, sqDevSum (col.filterMap id) ≠ 0) :
    (∀ (i j : ℕ) (x y : Series), cols[i]? = some x → cols[j]? = some y →
      ∃ row, (plot_correlation cols)[i]? = some row ∧
        row[j]? = some (pearson? (pairedRows x y))) ∧
    (∀ (i j : ℕ) (ri rj : List Cell), (plot_correlation cols)[i]? = some ri →
      (plot_correlation cols)[j]? = some rj → ri[j]? = rj[i]?) ∧
    (∀ (i : ℕ) (x : Series), cols[i]? = some x →
      ∃ row, (plot_correlation cols)[i]? = some row ∧
        row[i]? = some (some 1)) := by
  have hrow : ∀ (i : ℕ) (x : Series), cols[i]? = some x →
      (plot_correlation cols)[i]? =
        some (cols.map (fun y => pearson? (pairedRows x y))) := by
    intro i x hx
    rw [plot_correlation, corrMatrix, List.getElem?_map, hx]
    rfl
  refine ⟨?_, ?_, ?_⟩
  · intro i j x y hx hy
    refine ⟨_, hrow i x hx, ?_⟩
    rw [List.getElem?_map, hy]
    rfl
  · intro i j ri rj hri hrj
    rw [plot_correlation, corrMatrix, List.getElem?_map] at hri hrj
    obtain ⟨xi, hxi, hri'⟩ := Option.map_eq_some'.mp hri
    obtain ⟨xj, hxj, hrj'⟩ := Option.map_eq_some'.mp hrj
    subst hri' hrj'
    rw [List.getElem?_map, List.getElem?_map, hxi, hxj]
    show some (pearson? (pairedRows xi xj)) = some (pearson? (pairedRows xj xi))
    rw [pairedRows_swap xi xj, pearson?_map_swap]
  · intro i x hx
    refine ⟨_, hrow i x hx, ?_⟩
    rw [List.getElem?_map, hx]
    show some (pearson? (pairedRows x x)) = _
    rw [pairedRows_self, pearson?_self_diag _ (hnd x (mem_of_getElem?_some hx))]

theorem c7_correlation_matrix_witness :
    (∀ (i j : ℕ) (x y : Series),
      ([[some 0, some 1], [some 1, some 0]] : List Series)[i]? = some x →
      ([[some 0, some 1], [some 1, some 0]] : List Series)[j]? = some y →
      ∃ row, (plot_correlation [[some 0, some 1], [some 1, some 0]])[i]? =
          some row ∧
        row[j]? = some (pearson? (pairedRows x y))) ∧
    (∀ (i j : ℕ) (ri rj : List Cell),
      (plot_correlation [[some 0, some 1], [some 1, some 0]])[i]? = some ri →
      (plot_correlation [[some 0, some 1], [some 1, some 0]])[j]? = some rj →
      ri[j]? = rj[i]?) ∧
    (∀ (i : ℕ) (x : Series),
      ([[some 0, some 1], [some 1, some 0]] : List Series)[i]? = some x →
      ∃ row, (plot_correlation [[some 0, some 1], [some 1, some 0]])[i]? =
          some row ∧
        row[i]? = some (some 1)) :=
  c7_correlation_matrix [[some 0, some 1], [some 1, some 0]] (by
    intro col hcol
    rcases List.mem_cons.mp hcol with rfl | hcol2
    · norm_num [sqDevSum, mean, List.filterMap_cons]
    · rcases List.mem_cons.mp hcol2 with rfl | hcol3
      · norm_num [sqDevSum, mean, List.filterMap_cons]
      · exact absurd hcol3 (List.not_mem_nil col))

end BIST50
